import Mathlib

/-!
Verification of the synthesis core of the apocalypse-radio-playground
repository (generate_bass.py, generate_drums.py, generate_synths.py).

Waveform buffers are modelled as lists of rationals (the float samples of
the source), except the noise-based drum voices, whose samples involve the
transcendental functions exp and sin and are therefore modelled over the
real numbers.  Python int() applied to a rational is modelled by intPy
(truncation toward zero), and numpy linspace with endpoint=True by
linspace.  Each definition is a direct translation of the corresponding
Python function; the sample rate is fixed at its constant value 44100,
matching every call site in the repository.
-/

/-- The fixed sample rate, 44100 Hz (SAMPLE_RATE in all three modules). -/
def SAMPLE_RATE : ℚ := 44100

/-- Tempo constant BPM = 120. -/
def BPM : ℚ := 120

/-- BEAT_DURATION = 60.0 / BPM = 0.5 seconds per beat (generate_drums.py line 7). -/
def BEAT_DURATION : ℚ := 60 / BPM

/-- Python int() applied to a float, modelled on rationals: truncation
toward zero (floor for nonnegative arguments, negated floor of the
negation for negative ones). -/
def intPy (x : ℚ) : ℤ := if 0 ≤ x then x.floor else -((-x).floor)

/-- numpy linspace(a, b, num) with the default endpoint=True: num equally
spaced values from a to b inclusive; for num = 1 numpy returns the single
value a, and for num = 0 the empty array. -/
def linspace (a b : ℚ) (num : ℕ) : List ℚ :=
  if num ≤ 1 then List.replicate num a
  else (List.range num).map (fun i : ℕ => a + (b - a) * i / ((num - 1 : ℕ) : ℚ))

/-- numpy {x % 1.0} for a float x: the fractional part x - floor x, always in
[0, 1) (numpy mod takes the sign of the divisor). -/
def fractQ (x : ℚ) : ℚ := x - (x.floor : ℚ)

/-- np.max(np.abs(l)): the peak absolute value of a buffer (0 for the empty
buffer, on which numpy would raise instead; no call site passes one). -/
def peakAbs (l : List ℚ) : ℚ := l.foldr (fun x m => max |x| m) 0


namespace GenerateBass

/-- sawtooth_wave from generate_bass.py (lines 23 to 28): the time grid
t = linspace(0, duration, int(sample_rate * duration), endpoint=False) and
the wave 2.0 * (t * freq - floor(0.5 + t * freq)); returns the pair (t, wave). -/
def sawtooth_wave (freq duration : ℚ) : List ℚ × List ℚ :=
  let n := (intPy (SAMPLE_RATE * duration)).toNat
  let t := (List.range n).map (fun i : ℕ => (i : ℚ) * duration / (n : ℚ))
  (t, t.map (fun ti => 2 * (ti * freq - ((1/2 + ti * freq).floor : ℚ))))

/-- adsr_envelope from generate_bass.py (lines 39 to 66), with the sample
rate fixed at 44100 as at every call site (source defaults attack=0.01,
decay=0.05, sustain_level=0.7, release=0.1).  Phase lengths are the int()
truncations of the phase durations times the sample rate; if the sustain
length is negative the short-note fallback returns a symmetric rise/fall
split at the buffer midpoint, otherwise the four phases tile the buffer
exactly.  The translation is faithful for nonnegative phase durations; for
a negative duration the Python code raises inside np.linspace, which no
claim and no call site exercises. -/
def adsr_envelope (num_samples : ℕ) (attack decay sustain_level release : ℚ) : List ℚ :=
  let attack_samples : ℤ := intPy (attack * SAMPLE_RATE)
  let decay_samples : ℤ := intPy (decay * SAMPLE_RATE)
  let release_samples : ℤ := intPy (release * SAMPLE_RATE)
  let sustain_samples : ℤ :=
    (num_samples : ℤ) - attack_samples - decay_samples - release_samples
  if sustain_samples < 0 then
    let half := num_samples / 2
    linspace 0 1 half ++ linspace 1 0 (num_samples - half)
  else
    linspace 0 1 attack_samples.toNat
      ++ linspace 1 sustain_level decay_samples.toNat
      ++ List.replicate sustain_samples.toNat sustain_level
      ++ linspace sustain_level 0 release_samples.toNat

end GenerateBass

namespace GenerateSynths

/-- saw_wave from generate_synths.py (lines 64 to 66):
t = arange(int(duration * sr)) / sr and 2.0 * (t * freq % 1.0) - 1.0. -/
def saw_wave (freq duration : ℚ) : List ℚ :=
  let n := (intPy (duration * SAMPLE_RATE)).toNat
  (List.range n).map (fun i : ℕ => 2 * fractQ ((i : ℚ) / SAMPLE_RATE * freq) - 1)

/-- adsr_envelope from generate_synths.py (lines 33 to 61), with the sample
rate fixed at 44100 as at every call site (source defaults attack=0.01,
decay=0.1, sustain_level=0.7, release=0.1).  The four phases are written
sequentially from index idx, each segment end clamped at the buffer end,
and the release fills the whole remainder; e1, e2, e3 are the values taken
by idx after the attack, decay and sustain branches.  Unlike the bass
version there is no symmetric short-note fallback. -/
def adsr_envelope (num_samples : ℕ) (attack decay sustain_level release : ℚ) : List ℚ :=
  let a_samples : ℤ := intPy (attack * SAMPLE_RATE)
  let d_samples : ℤ := intPy (decay * SAMPLE_RATE)
  let r_samples : ℤ := intPy (release * SAMPLE_RATE)
  let s_samples : ℤ :=
    max 0 ((num_samples : ℤ) - a_samples - d_samples - r_samples)
  let e1 : ℕ := if 0 < a_samples then min a_samples.toNat num_samples else 0
  let e2 : ℕ :=
    if e1 < num_samples ∧ 0 < d_samples then min (e1 + d_samples.toNat) num_samples else e1
  let e3 : ℕ :=
    if e2 < num_samples ∧ 0 < s_samples then min (e2 + s_samples.toNat) num_samples else e2
  linspace 0 1 e1
    ++ linspace 1 sustain_level (e2 - e1)
    ++ List.replicate (e3 - e2) sustain_level
    ++ (if e3 < num_samples then linspace sustain_level 0 (num_samples - e3) else [])

end GenerateSynths

namespace GenerateDrums

/-- place_sound from generate_drums.py (lines 56 to 63): start is int() of
the position, the end index start + len(sound) is clamped to the track
length, the sound is truncated to the clamped window, and the volume-scaled
sound is added elementwise onto that slice of the track.  numpy in-place
slice assignment is modelled by rebuilding the list as prefix, updated
slice and suffix.  Faithful whenever start is at most the track length (an
out-of-range start makes the numpy broadcast raise, which the claims
exclude). -/
def place_sound (track sound : List ℚ) (position_samples volume : ℚ) : List ℚ :=
  let start := (intPy position_samples).toNat
  let e := min (start + sound.length) track.length
  let s := sound.take (e - start)
  track.take start
    ++ List.zipWith (fun a b => a + b * volume) ((track.drop start).take s.length) s
    ++ track.drop e

/-- beat_to_samples from generate_drums.py (lines 65 to 67):
int(beat * BEAT_DURATION * SAMPLE_RATE). -/
def beat_to_samples (beat : ℚ) : ℤ := intPy (beat * BEAT_DURATION * SAMPLE_RATE)

/-- The kick placement positions of generate_chorus (generate_drums.py
lines 119 to 123), in loop order: for every bar below num_beats // 4 and
every beat 0..3, a kick is placed at beat_to_samples(bar * 4 + beat) with
volume 0.95.  Only the placement positions are modelled here. -/
def chorus_kick_positions (num_beats : ℕ) : List ℤ :=
  (List.range (num_beats / 4)).flatMap (fun bar : ℕ =>
    (List.range 4).map (fun beat : ℕ => beat_to_samples ((bar * 4 + beat : ℕ) : ℚ)))

/-- normalize_and_convert from generate_drums.py (lines 69 to 73): scale so
the peak maps to 0.9 when the peak is positive, then multiply by 32767 and
cast to int16 (the cast truncates toward zero; every value here is within
int16 range, so wrapping is not modelled). -/
def normalize_and_convert (track : List ℚ) : List ℤ :=
  let track2 :=
    if 0 < peakAbs track then track.map (fun x => x / peakAbs track * (9/10)) else track
  track2.map (fun x => intPy (x * 32767))

end GenerateDrums

namespace GenerateSynths

/-- The normalization step of save_wav from generate_synths.py (lines 86
to 94): when the peak absolute amplitude is positive, scale every sample by
0.7 / peak. -/
def save_wav_normalize (audio : List ℚ) : List ℚ :=
  if 0 < peakAbs audio then audio.map (fun x => x * (7/10 / peakAbs audio)) else audio

end GenerateSynths

namespace GenerateBass

/-- The epsilon-guarded normalization used by generate_bass.py, in
make_bass_note (line 80, target = volume) and generate_outro (line 195,
target = 0.7): wave / (peak + 1e-9) * target. -/
def peak_normalize (wave : List ℚ) (target : ℚ) : List ℚ :=
  wave.map (fun x => x / (peakAbs wave + 1/1000000000) * target)

end GenerateBass

namespace GenerateDrums

/-- len(t) for a drum voice: int(sample_rate * duration) samples. -/
def drum_len (duration sample_rate : ℚ) : ℕ := (intPy (sample_rate * duration)).toNat

/-- generate_snare from generate_drums.py (lines 26 to 35): time grid
t = linspace(0, duration, int(sample_rate * duration), endpoint=False),
snare = noise * exp(-t * 40) * 0.6 + sin(2 pi 200 t) * exp(-t * 50) * 0.4.
The unseeded np.random.randn draw is modelled by the explicit noise
argument giving the i-th drawn sample; the sample values are real because
they involve exp and sin. -/
noncomputable def generate_snare (duration sample_rate : ℚ) (noise : ℕ → ℝ) : List ℝ :=
  let n := drum_len duration sample_rate
  (List.range n).map (fun i : ℕ =>
    let t : ℝ := (((i : ℚ) * duration / (n : ℚ) : ℚ) : ℝ)
    noise i * Real.exp (-t * 40) * 0.6
      + Real.sin (2 * Real.pi * 200 * t) * Real.exp (-t * 50) * 0.4)

/-- generate_hihat_closed from generate_drums.py (lines 37 to 45): the
noise is differentiated (np.diff with prepend=0) as a high-pass
approximation and shaped by exp(-t * 100); the noise draw is again an
explicit argument. -/
noncomputable def generate_hihat_closed (duration sample_rate : ℚ) (noise : ℕ → ℝ) :
    List ℝ :=
  let n := drum_len duration sample_rate
  (List.range n).map (fun i : ℕ =>
    let t : ℝ := (((i : ℚ) * duration / (n : ℚ) : ℚ) : ℝ)
    (noise i - (if i = 0 then 0 else noise (i - 1))) * Real.exp (-t * 100))

end GenerateDrums
/-- Rat.floor agrees with the floor of the ordered-field structure. -/
theorem ratFloor_eq (q : ℚ) : (q.floor : ℤ) = ⌊q⌋ :=
  (Rat.floor_def' q).trans Rat.floor_def.symm

/-- Cast form of ratFloor_eq. -/
theorem ratFloor_cast (q : ℚ) : ((q.floor : ℤ) : ℚ) = ((⌊q⌋ : ℤ) : ℚ) := by
  rw [ratFloor_eq]

/-- intPy is the floor on nonnegative arguments. -/
theorem intPy_eq_floor {x : ℚ} (hx : 0 ≤ x) : intPy x = ⌊x⌋ := by
  rw [intPy, if_pos hx, ratFloor_eq]

/-- intPy of a nonnegative integer cast. -/
theorem intPy_natCast (n : ℕ) : intPy ((n : ℚ)) = (n : ℤ) := by
  rw [intPy_eq_floor (by positivity), Int.floor_natCast]

/-- intPy of a nonpositive argument is nonpositive. -/
theorem intPy_nonpos {x : ℚ} (hx : x ≤ 0) : intPy x ≤ 0 := by
  rw [intPy]
  split
  · next h =>
    have hx0 : x = 0 := le_antisymm hx h
    subst hx0
    rw [ratFloor_eq, Int.floor_zero]
  · have h1 : (0:ℚ) ≤ -x := by linarith
    have h2 : (0:ℤ) ≤ (-x).floor := by rw [ratFloor_eq]; exact Int.floor_nonneg.2 h1
    omega

/-- intPy of a nonnegative argument is nonnegative. -/
theorem intPy_nonneg {x : ℚ} (hx : 0 ≤ x) : 0 ≤ intPy x := by
  rw [intPy_eq_floor hx]
  exact Int.floor_nonneg.2 hx

/-- fractQ agrees with Int.fract. -/
theorem fractQ_eq (x : ℚ) : fractQ x = Int.fract x := by
  rw [fractQ, ratFloor_cast, Int.fract]

/-- linspace always has exactly the requested length. -/
theorem linspace_length (a b : ℚ) (num : ℕ) : (linspace a b num).length = num := by
  rw [linspace]
  split
  · simp
  · simp

/-- Every element of linspace a b num lies between a and b. -/
theorem mem_linspace_bounds {a b : ℚ} {num : ℕ} {x : ℚ} (hx : x ∈ linspace a b num) :
    min a b ≤ x ∧ x ≤ max a b := by
  rw [linspace] at hx
  split at hx
  · rcases List.eq_of_mem_replicate hx with rfl
    exact ⟨min_le_left _ _, le_max_left _ _⟩
  · next h =>
    rcases List.mem_map.1 hx with ⟨i, hi, rfl⟩
    have hilt := List.mem_range.1 hi
    have hnum : 2 ≤ num := by omega
    have hden : (0:ℚ) < ((num - 1 : ℕ) : ℚ) := by
      have h1 : 1 ≤ num - 1 := by omega
      exact_mod_cast Nat.lt_of_lt_of_le Nat.zero_lt_one h1
    have hle : (i : ℚ) ≤ ((num - 1 : ℕ) : ℚ) := by
      have h1 : i ≤ num - 1 := by omega
      exact_mod_cast h1
    have hi0 : (0:ℚ) ≤ (i : ℚ) := by positivity
    have ht0 : (0:ℚ) ≤ (i : ℚ) / ((num - 1 : ℕ) : ℚ) := by positivity
    have ht1 : (i : ℚ) / ((num - 1 : ℕ) : ℚ) ≤ 1 := by
      rw [div_le_one hden]; exact hle
    have hrw : a + (b - a) * i / ((num - 1 : ℕ) : ℚ)
        = a + (b - a) * ((i : ℚ) / ((num - 1 : ℕ) : ℚ)) := by ring
    rcases le_total a b with hab | hab
    · rw [min_eq_left hab, max_eq_right hab, hrw]
      constructor
      · nlinarith
      · nlinarith
    · rw [min_eq_right hab, max_eq_left hab, hrw]
      constructor
      · nlinarith
      · nlinarith

/-- Closed form for the entries of linspace. -/
theorem linspace_getD {a b : ℚ} {num i : ℕ} (hi : i < num) :
    (linspace a b num).getD i 0 = a + (b - a) * i / ((num - 1 : ℕ) : ℚ) := by
  rw [linspace]
  split
  · next h =>
    have hnum : num = 1 := by omega
    subst hnum
    have hi0 : i = 0 := by omega
    subst hi0
    simp
  · next h =>
    rw [List.getD_eq_getElem _ _ (by simpa using hi)]
    simp

/-- C2 (amended): for every frequency f bigger than 0 and duration d bigger
than 0, both sawtooth generators return a buffer whose length is the
truncation int(d * 44100) = floor(d * 44100), not round(d * 44100), and
every sample lies in the half-open interval from -1 inclusive to 1
exclusive. -/
theorem c2_saw_length_floor_and_sample_range (freq duration : ℚ)
    (hf : 0 < freq) (hd : 0 < duration) :
    ((GenerateBass.sawtooth_wave freq duration).2.length = (⌊SAMPLE_RATE * duration⌋).toNat
      ∧ ∀ x ∈ (GenerateBass.sawtooth_wave freq duration).2, -1 ≤ x ∧ x < 1)
    ∧ ((GenerateSynths.saw_wave freq duration).length = (⌊duration * SAMPLE_RATE⌋).toNat
      ∧ ∀ x ∈ GenerateSynths.saw_wave freq duration, -1 ≤ x ∧ x < 1) := by
  have hs : (0:ℚ) < SAMPLE_RATE := by norm_num [SAMPLE_RATE]
  refine ⟨⟨?_, ?_⟩, ⟨?_, ?_⟩⟩
  · rw [GenerateBass.sawtooth_wave, intPy_eq_floor (by positivity)]
    simp
  · intro x hx
    rw [GenerateBass.sawtooth_wave] at hx
    simp only [List.mem_map] at hx
    rcases hx with ⟨ti, _, rfl⟩
    have h1 : ((1/2 + ti * freq).floor : ℚ) ≤ 1/2 + ti * freq := by
      rw [ratFloor_cast]
      exact Int.floor_le _
    have h2 : 1/2 + ti * freq < ((1/2 + ti * freq).floor : ℚ) + 1 := by
      rw [ratFloor_cast]
      exact Int.lt_floor_add_one _
    constructor <;> linarith
  · rw [GenerateSynths.saw_wave, intPy_eq_floor (by positivity)]
    simp
  · intro x hx
    rw [GenerateSynths.saw_wave] at hx
    simp only [List.mem_map] at hx
    rcases hx with ⟨i, _, rfl⟩
    have h1 : 0 ≤ fractQ ((i : ℚ) / SAMPLE_RATE * freq) := by
      rw [fractQ_eq]; exact Int.fract_nonneg _
    have h2 : fractQ ((i : ℚ) / SAMPLE_RATE * freq) < 1 := by
      rw [fractQ_eq]; exact Int.fract_lt_one _
    constructor <;> linarith

/-- C2 witness: at freq 100 and duration 1/100 the hypotheses hold and the
conclusion is obtained from the theorem itself. -/
theorem c2_saw_length_floor_and_sample_range_witness :
    (0:ℚ) < 100 ∧ (0:ℚ) < 1/100
    ∧ (((GenerateBass.sawtooth_wave 100 (1/100)).2.length = (⌊SAMPLE_RATE * (1/100)⌋).toNat
        ∧ ∀ x ∈ (GenerateBass.sawtooth_wave 100 (1/100)).2, -1 ≤ x ∧ x < 1)
      ∧ ((GenerateSynths.saw_wave 100 (1/100)).length = (⌊(1/100 : ℚ) * SAMPLE_RATE⌋).toNat
        ∧ ∀ x ∈ GenerateSynths.saw_wave 100 (1/100), -1 ≤ x ∧ x < 1)) :=
  ⟨by norm_num, by norm_num,
    c2_saw_length_floor_and_sample_range 100 (1/100) (by norm_num) (by norm_num)⟩

/-- C2 counterexample: at freq 100 and duration 39/441000 (both positive),
the output length is int(3.9) = 3 but round(d * 44100) = round(3.9) = 4, so
the claimed length formula round(d * 44100) is false. -/
theorem c2_counterexample :
    (0:ℚ) < 100 ∧ (0:ℚ) < 39/441000
    ∧ ((GenerateSynths.saw_wave 100 (39/441000)).length : ℤ)
        ≠ round ((39/441000 : ℚ) * 44100) := by
  refine ⟨by norm_num, by norm_num, ?_⟩
  have h1 : intPy ((39/441000 : ℚ) * SAMPLE_RATE) = 3 := by
    rw [intPy_eq_floor (by norm_num [SAMPLE_RATE])]
    norm_num [SAMPLE_RATE]
  have h2 : (GenerateSynths.saw_wave 100 (39/441000)).length = 3 := by
    simp [GenerateSynths.saw_wave, h1]
  rw [h2, round_eq]
  norm_num

/-- C5: the code performs no parameter validation at all; a non-positive
duration silently yields an empty buffer from both sawtooth generators
instead of an InvalidParameter failure (no such error kind exists anywhere
in the repository). -/
theorem c5_no_validation_silent_empty_buffer :
    GenerateSynths.saw_wave 440 0 = []
    ∧ GenerateSynths.saw_wave 440 (-1) = []
    ∧ (GenerateBass.sawtooth_wave 440 0).2 = [] := by
  refine ⟨?_, ?_, ?_⟩
  · simp only [GenerateSynths.saw_wave]
    rw [show (0:ℚ) * SAMPLE_RATE = 0 by ring,
      show intPy 0 = 0 by rw [intPy_eq_floor le_rfl, Int.floor_zero]]
    simp
  · simp only [GenerateSynths.saw_wave]
    have h : (intPy ((-1:ℚ) * SAMPLE_RATE)).toNat = 0 := by
      have := intPy_nonpos (x := (-1:ℚ) * SAMPLE_RATE) (by norm_num [SAMPLE_RATE])
      omega
    rw [h]
    simp
  · simp only [GenerateBass.sawtooth_wave]
    rw [show SAMPLE_RATE * (0:ℚ) = 0 by ring,
      show intPy 0 = 0 by rw [intPy_eq_floor le_rfl, Int.floor_zero]]
    simp

/-- Elements of a linspace from 0 to 1 are nonnegative and at most max 1 s. -/
theorem seg_up_bounds {m : ℕ} {x : ℚ} (s : ℚ) (hx : x ∈ linspace 0 1 m) :
    0 ≤ x ∧ x ≤ max 1 s := by
  obtain ⟨h1, h2⟩ := mem_linspace_bounds hx
  rw [min_eq_left zero_le_one] at h1
  rw [max_eq_right zero_le_one] at h2
  exact ⟨h1, le_trans h2 (le_max_left 1 s)⟩

/-- Elements of a linspace from 1 to 0 are nonnegative and at most max 1 s. -/
theorem seg_down_bounds {m : ℕ} {x : ℚ} (s : ℚ) (hx : x ∈ linspace 1 0 m) :
    0 ≤ x ∧ x ≤ max 1 s := by
  obtain ⟨h1, h2⟩ := mem_linspace_bounds hx
  rw [min_eq_right zero_le_one] at h1
  rw [max_eq_left zero_le_one] at h2
  exact ⟨h1, le_trans h2 (le_max_left 1 s)⟩

/-- Elements of a linspace from 1 to a nonnegative s are nonnegative and at
most max 1 s. -/
theorem seg_decay_bounds {m : ℕ} {x s : ℚ} (hx : x ∈ linspace 1 s m) (hs0 : 0 ≤ s) :
    0 ≤ x ∧ x ≤ max 1 s := by
  obtain ⟨h1, h2⟩ := mem_linspace_bounds hx
  exact ⟨le_trans (le_min zero_le_one hs0) h1, h2⟩

/-- Elements of a linspace from a nonnegative s to 0 are nonnegative and at
most max 1 s. -/
theorem seg_release_bounds {m : ℕ} {x s : ℚ} (hx : x ∈ linspace s 0 m) (hs0 : 0 ≤ s) :
    0 ≤ x ∧ x ≤ max 1 s := by
  obtain ⟨h1, h2⟩ := mem_linspace_bounds hx
  refine ⟨le_trans (le_min hs0 le_rfl) h1, ?_⟩
  rw [max_eq_left hs0] at h2
  exact le_trans h2 (le_max_right 1 s)

/-- C8: for every requested sample count, nonnegative attack, decay and
release durations, and sustain level in [0, 1], both ADSR generators return
a buffer of exactly the requested length whose samples are all nonnegative
and bounded above by max 1 sustain_level. -/
theorem c8_adsr_length_nonneg_bounded (num_samples : ℕ)
    (attack decay sustain_level release : ℚ)
    (ha : 0 ≤ attack) (hd : 0 ≤ decay) (hr : 0 ≤ release)
    (hs0 : 0 ≤ sustain_level) (hs1 : sustain_level ≤ 1) :
    ((GenerateBass.adsr_envelope num_samples attack decay sustain_level release).length
        = num_samples
      ∧ ∀ x ∈ GenerateBass.adsr_envelope num_samples attack decay sustain_level release,
          0 ≤ x ∧ x ≤ max 1 sustain_level)
    ∧ ((GenerateSynths.adsr_envelope num_samples attack decay sustain_level release).length
        = num_samples
      ∧ ∀ x ∈ GenerateSynths.adsr_envelope num_samples attack decay sustain_level release,
          0 ≤ x ∧ x ≤ max 1 sustain_level) := by
  have hsr : (0:ℚ) < SAMPLE_RATE := by norm_num [SAMPLE_RATE]
  have hA : 0 ≤ intPy (attack * SAMPLE_RATE) := intPy_nonneg (by positivity)
  have hD : 0 ≤ intPy (decay * SAMPLE_RATE) := intPy_nonneg (by positivity)
  have hR : 0 ≤ intPy (release * SAMPLE_RATE) := intPy_nonneg (by positivity)
  constructor
  · simp only [GenerateBass.adsr_envelope]
    split
    · next hneg =>
      constructor
      · simp only [List.length_append, linspace_length]
        omega
      · intro x hx
        rcases List.mem_append.1 hx with h1 | h2
        · exact seg_up_bounds sustain_level h1
        · exact seg_down_bounds sustain_level h2
    · next hpos =>
      constructor
      · simp only [List.length_append, linspace_length, List.length_replicate]
        omega
      · intro x hx
        rcases List.mem_append.1 hx with hx3 | h4
        rcases List.mem_append.1 hx3 with hx2 | h3
        rotate_left
        · rcases List.eq_of_mem_replicate h3 with rfl
          exact ⟨hs0, le_max_right 1 _⟩
        · exact seg_release_bounds h4 hs0
        rcases List.mem_append.1 hx2 with h1 | h2
        · exact seg_up_bounds sustain_level h1
        · exact seg_decay_bounds h2 hs0
  · simp only [GenerateSynths.adsr_envelope]
    set a_s := intPy (attack * SAMPLE_RATE) with ha_s
    set d_s := intPy (decay * SAMPLE_RATE) with hd_s
    set r_s := intPy (release * SAMPLE_RATE) with hr_s
    set s_s := max 0 ((num_samples : ℤ) - a_s - d_s - r_s) with hs_s
    set e1 := if 0 < a_s then min a_s.toNat num_samples else 0 with he1
    set e2 := if e1 < num_samples ∧ 0 < d_s then min (e1 + d_s.toNat) num_samples else e1
      with he2
    set e3 := if e2 < num_samples ∧ 0 < s_s then min (e2 + s_s.toNat) num_samples else e2
      with he3
    have q1 : e1 ≤ num_samples := by rw [he1]; split <;> omega
    have q2 : e1 ≤ e2 := by rw [he2]; split <;> omega
    have q3 : e2 ≤ num_samples := by rw [he2]; split <;> omega
    have q4 : e2 ≤ e3 := by rw [he3]; split <;> omega
    have q5 : e3 ≤ num_samples := by rw [he3]; split <;> omega
    constructor
    · rcases lt_or_ge e3 num_samples with h | h
      · rw [if_pos h]
        simp only [List.length_append, linspace_length, List.length_replicate]
        omega
      · rw [if_neg (not_lt.2 h)]
        simp only [List.length_append, linspace_length, List.length_replicate,
          List.length_nil]
        omega
    · intro x hx
      rcases List.mem_append.1 hx with hx3 | h4
      rcases List.mem_append.1 hx3 with hx2 | h3
      rotate_left
      · rcases List.eq_of_mem_replicate h3 with rfl
        exact ⟨hs0, le_max_right 1 _⟩
      · split at h4
        · exact seg_release_bounds h4 hs0
        · simp at h4
      rcases List.mem_append.1 hx2 with h1 | h2
      · exact seg_up_bounds sustain_level h1
      · exact seg_decay_bounds h2 hs0

/-- C8 witness: a concrete envelope request with 2000 samples, attack,
decay and release of 1/100 second each and sustain level 1/2 satisfies the
hypotheses, and the conclusion follows from the theorem. -/
theorem c8_adsr_length_nonneg_bounded_witness :
    ((0:ℚ) ≤ 1/100 ∧ (0:ℚ) ≤ 1/2 ∧ (1/2:ℚ) ≤ 1)
    ∧ (((GenerateBass.adsr_envelope 2000 (1/100) (1/100) (1/2) (1/100)).length = 2000
        ∧ ∀ x ∈ GenerateBass.adsr_envelope 2000 (1/100) (1/100) (1/2) (1/100),
            0 ≤ x ∧ x ≤ max 1 (1/2))
      ∧ ((GenerateSynths.adsr_envelope 2000 (1/100) (1/100) (1/2) (1/100)).length = 2000
        ∧ ∀ x ∈ GenerateSynths.adsr_envelope 2000 (1/100) (1/100) (1/2) (1/100),
            0 ≤ x ∧ x ≤ max 1 (1/2))) :=
  ⟨⟨by norm_num, by norm_num, by norm_num⟩,
    c8_adsr_length_nonneg_bounded 2000 (1/100) (1/100) (1/2) (1/100)
      (by norm_num) (by norm_num) (by norm_num) (by norm_num) (by norm_num)⟩

/-- C1 (amended, bass side): whenever the requested attack, decay and
release sample counts together exceed the total sample count, the bass
ADSR generator produces the symmetric fallback envelope split at the
buffer midpoint: the first num_samples / 2 entries are the linear ramp
from 0 to 1 and the remaining entries the linear ramp from 1 to 0, with
the explicit per-index closed forms. -/
theorem c1_bass_adsr_short_note_symmetric_fallback (num_samples : ℕ)
    (attack decay sustain_level release : ℚ)
    (hshort : (num_samples : ℤ) - intPy (attack * SAMPLE_RATE)
        - intPy (decay * SAMPLE_RATE) - intPy (release * SAMPLE_RATE) < 0) :
    GenerateBass.adsr_envelope num_samples attack decay sustain_level release
        = linspace 0 1 (num_samples / 2) ++ linspace 1 0 (num_samples - num_samples / 2)
    ∧ (∀ i < num_samples / 2,
        (GenerateBass.adsr_envelope num_samples attack decay sustain_level release).getD i 0
          = (i : ℚ) / ((num_samples / 2 - 1 : ℕ) : ℚ))
    ∧ (∀ j < num_samples - num_samples / 2,
        (GenerateBass.adsr_envelope num_samples attack decay sustain_level
            release).getD (num_samples / 2 + j) 0
          = 1 - (j : ℚ) / ((num_samples - num_samples / 2 - 1 : ℕ) : ℚ)) := by
  have henv : GenerateBass.adsr_envelope num_samples attack decay sustain_level release
      = linspace 0 1 (num_samples / 2) ++ linspace 1 0 (num_samples - num_samples / 2) := by
    simp only [GenerateBass.adsr_envelope]
    rw [if_pos hshort]
  refine ⟨henv, ?_, ?_⟩
  · intro i hi
    rw [henv, List.getD_append _ _ _ _ (by rw [linspace_length]; exact hi),
      linspace_getD hi]
    ring
  · intro j hj
    have hlen : (linspace 0 1 (num_samples / 2)).length = num_samples / 2 :=
      linspace_length _ _ _
    rw [henv, List.getD_append_right _ _ _ _ (by rw [hlen]; omega)]
    rw [hlen, show num_samples / 2 + j - num_samples / 2 = j by omega, linspace_getD hj]
    ring

/-- C1 witness: a 100 sample request with a one second attack triggers the
short-note condition, and the fallback equals the two midpoint ramps. -/
theorem c1_bass_adsr_short_note_symmetric_fallback_witness :
    ((100 : ℤ) - intPy ((1:ℚ) * SAMPLE_RATE) - intPy ((0:ℚ) * SAMPLE_RATE)
        - intPy ((0:ℚ) * SAMPLE_RATE) < 0)
    ∧ GenerateBass.adsr_envelope 100 1 0 (7/10) 0
        = linspace 0 1 50 ++ linspace 1 0 50 := by
  have hcond : (100 : ℤ) - intPy ((1:ℚ) * SAMPLE_RATE) - intPy ((0:ℚ) * SAMPLE_RATE)
      - intPy ((0:ℚ) * SAMPLE_RATE) < 0 := by
    rw [show (1:ℚ) * SAMPLE_RATE = ((44100:ℕ) : ℚ) by norm_num [SAMPLE_RATE],
      show (0:ℚ) * SAMPLE_RATE = ((0:ℕ) : ℚ) by norm_num, intPy_natCast, intPy_natCast]
    norm_num
  have h := (c1_bass_adsr_short_note_symmetric_fallback 100 1 0 (7/10) 0 hcond).1
  exact ⟨hcond, by simpa using h⟩

/-- C1 counterexample: the synth ADSR generator does not implement the
symmetric fallback.  At 100 samples with the source defaults (attack 0.01,
decay 0.1, sustain 0.7, release 0.1) the requested phase sample counts
441 + 4410 + 4410 exceed 100, yet entry 50 of the produced envelope is
50/99 (the over-long attack ramp fills the whole buffer) where the
symmetric fallback envelope has entry 50 equal to 1. -/
theorem c1_counterexample :
    ((100 : ℤ) < intPy ((1/100 : ℚ) * SAMPLE_RATE) + intPy ((1/10 : ℚ) * SAMPLE_RATE)
        + intPy ((1/10 : ℚ) * SAMPLE_RATE))
    ∧ (GenerateSynths.adsr_envelope 100 (1/100) (1/10) (7/10) (1/10)).getD 50 0
        ≠ (linspace 0 1 (100 / 2) ++ linspace 1 0 (100 - 100 / 2)).getD 50 0 := by
  have h441 : intPy ((1/100 : ℚ) * SAMPLE_RATE) = 441 := by
    rw [show (1/100 : ℚ) * SAMPLE_RATE = ((441:ℕ) : ℚ) by norm_num [SAMPLE_RATE],
      intPy_natCast]
    norm_num
  have h4410 : intPy ((1/10 : ℚ) * SAMPLE_RATE) = 4410 := by
    rw [show (1/10 : ℚ) * SAMPLE_RATE = ((4410:ℕ) : ℚ) by norm_num [SAMPLE_RATE],
      intPy_natCast]
    norm_num
  constructor
  · rw [h441, h4410]
    norm_num
  · have hz : linspace 1 (7/10 : ℚ) 0 = [] := by rw [linspace]; simp
    have henv : GenerateSynths.adsr_envelope 100 (1/100) (1/10) (7/10) (1/10)
        = linspace 0 1 100 := by
      simp only [GenerateSynths.adsr_envelope, h441, h4410]
      norm_num [hz]
    have hx : (linspace 0 1 100).getD 50 0 = (50 : ℚ) / 99 := by
      rw [linspace_getD (by norm_num)]
      norm_num
    have hy : (linspace 0 1 (100 / 2) ++ linspace 1 0 (100 - 100 / 2)).getD 50 0 = 1 := by
      have h50 : (100:ℕ) / 2 = 50 := by norm_num
      have h50b : (100:ℕ) - 100 / 2 = 50 := by norm_num
      rw [h50, h50b, List.getD_append_right _ _ _ _ (by simp [linspace_length])]
      rw [linspace_length, show (50 - 50 : ℕ) = 0 from rfl, linspace_getD (by norm_num)]
      norm_num
    rw [henv, hx, hy]
    norm_num

/-- place_sound never changes the length of the track when the start index
is in range. -/
theorem place_sound_length_eq (track sound : List ℚ) (position_samples volume : ℚ)
    (hin : (intPy position_samples).toNat ≤ track.length) :
    (GenerateDrums.place_sound track sound position_samples volume).length
      = track.length := by
  simp only [GenerateDrums.place_sound, List.length_append, List.length_zipWith,
    List.length_take, List.length_drop]
  omega

/-- C6: placing a sound at an in-range position whose end would exceed the
track length truncates the sound to fit (the result equals placing the
truncated sound) and leaves the track length unchanged. -/
theorem c6_place_sound_truncates_without_growing (track sound : List ℚ)
    (position_samples volume : ℚ) (hpos : 0 ≤ position_samples)
    (hin : (intPy position_samples).toNat ≤ track.length)
    (hover : track.length < (intPy position_samples).toNat + sound.length) :
    (GenerateDrums.place_sound track sound position_samples volume).length = track.length
    ∧ GenerateDrums.place_sound track sound position_samples volume
        = GenerateDrums.place_sound track
            (sound.take (track.length - (intPy position_samples).toNat))
            position_samples volume := by
  refine ⟨place_sound_length_eq track sound position_samples volume hin, ?_⟩
  simp only [GenerateDrums.place_sound]
  have e1 : min ((intPy position_samples).toNat + sound.length) track.length
      = track.length := by omega
  have e2 : min ((intPy position_samples).toNat
        + (sound.take (track.length - (intPy position_samples).toNat)).length)
      track.length = track.length := by
    rw [List.length_take]
    omega
  rw [e1, e2, List.take_take]
  have e3 : min (track.length - (intPy position_samples).toNat)
      (track.length - (intPy position_samples).toNat)
      = track.length - (intPy position_samples).toNat := min_self _
  rw [e3]

/-- Index-level specification of the slice-add operation inside
place_sound: entries in the window gain the volume-scaled sound sample,
entries outside it are unchanged. -/
theorem slice_add_spec (track sound : List ℚ) (volume : ℚ) (S e : ℕ)
    (hin : S ≤ track.length) (he : e = min (S + sound.length) track.length) :
    (∀ i : ℕ, S ≤ i → i < e →
      (track.take S
        ++ List.zipWith (fun a b => a + b * volume)
            ((track.drop S).take (sound.take (e - S)).length) (sound.take (e - S))
        ++ track.drop e)[i]?
        = some (track.getD i 0 + sound.getD (i - S) 0 * volume))
    ∧ (∀ i : ℕ, i < S →
      (track.take S
        ++ List.zipWith (fun a b => a + b * volume)
            ((track.drop S).take (sound.take (e - S)).length) (sound.take (e - S))
        ++ track.drop e)[i]?
        = track[i]?)
    ∧ (∀ i : ℕ, e ≤ i →
      (track.take S
        ++ List.zipWith (fun a b => a + b * volume)
            ((track.drop S).take (sound.take (e - S)).length) (sound.take (e - S))
        ++ track.drop e)[i]?
        = track[i]?) := by
  have hm : (sound.take (e - S)).length = e - S := by
    rw [List.length_take]; omega
  have hA : (track.take S).length = S := by
    rw [List.length_take]; omega
  have hB : (List.zipWith (fun a b => a + b * volume)
      ((track.drop S).take (sound.take (e - S)).length) (sound.take (e - S))).length
      = e - S := by
    rw [List.length_zipWith, hm, List.length_take, List.length_drop]; omega
  refine ⟨?_, ?_, ?_⟩
  · intro i h1 h2
    rw [List.getElem?_append_left (by rw [List.length_append, hA, hB]; omega)]
    rw [List.getElem?_append_right (by rw [hA]; omega), hA]
    rw [List.getElem?_zipWith, hm]
    rw [List.getElem?_take_of_lt (show i - S < e - S by omega), List.getElem?_drop]
    rw [show S + (i - S) = i by omega]
    rw [List.getElem?_take_of_lt (show i - S < e - S by omega)]
    rw [List.getElem?_eq_getElem (show i < track.length by omega)]
    rw [List.getElem?_eq_getElem (show i - S < sound.length by omega)]
    rw [List.getD_eq_getElem _ _ (show i < track.length by omega)]
    rw [List.getD_eq_getElem _ _ (show i - S < sound.length by omega)]
  · intro i hi
    rw [List.getElem?_append_left (by rw [List.length_append, hA, hB]; omega)]
    rw [List.getElem?_append_left (by rw [hA]; omega)]
    rw [List.getElem?_take_of_lt hi]
  · intro i hi
    rw [List.getElem?_append_right (by rw [List.length_append, hA, hB]; omega)]
    rw [List.length_append, hA, hB, show S + (e - S) = e by omega]
    rw [List.getElem?_drop, show e + (i - e) = i by omega]

/-- C10: place_sound at a nonnegative in-range position changes only the
entries from int(position) up to min(int(position) + len(sound),
len(track)) exclusive, adding the volume-scaled sound samples there; every
other entry and the track length are unchanged. -/
theorem c10_place_sound_frame (track sound : List ℚ) (position_samples volume : ℚ)
    (hpos : 0 ≤ position_samples)
    (hin : (intPy position_samples).toNat ≤ track.length) :
    (GenerateDrums.place_sound track sound position_samples volume).length = track.length
    ∧ (∀ i : ℕ, (intPy position_samples).toNat ≤ i
        → i < min ((intPy position_samples).toNat + sound.length) track.length
        → (GenerateDrums.place_sound track sound position_samples volume)[i]?
            = some (track.getD i 0
                + sound.getD (i - (intPy position_samples).toNat) 0 * volume))
    ∧ (∀ i : ℕ,
        (i < (intPy position_samples).toNat
          ∨ min ((intPy position_samples).toNat + sound.length) track.length ≤ i)
        → (GenerateDrums.place_sound track sound position_samples volume)[i]?
            = track[i]?) := by
  have hspec := slice_add_spec track sound volume (intPy position_samples).toNat
    (min ((intPy position_samples).toNat + sound.length) track.length) hin rfl
  refine ⟨place_sound_length_eq track sound position_samples volume hin, ?_, ?_⟩
  · intro i h1 h2
    exact hspec.1 i h1 h2
  · intro i hi
    rcases hi with hlt | hge
    · exact hspec.2.1 i hlt
    · exact hspec.2.2 i hge

/-- intPy of a natural literal, as a natural number. -/
theorem intPy_natCast_toNat (n : ℕ) : (intPy ((n : ℚ))).toNat = n := by
  rw [intPy_natCast]
  simp

/-- C6 witness: placing the three-sample sound [10, 20, 30] at position 2
of the three-sample track [1, 2, 3] satisfies the hypotheses (in range,
overflowing), and the conclusion follows from the theorem. -/
theorem c6_place_sound_truncates_without_growing_witness :
    ((0:ℚ) ≤ 2 ∧ (intPy (2:ℚ)).toNat ≤ ([1, 2, 3] : List ℚ).length
      ∧ ([1, 2, 3] : List ℚ).length
          < (intPy (2:ℚ)).toNat + ([10, 20, 30] : List ℚ).length)
    ∧ ((GenerateDrums.place_sound [1, 2, 3] [10, 20, 30] 2 2).length
        = ([1, 2, 3] : List ℚ).length
      ∧ GenerateDrums.place_sound [1, 2, 3] [10, 20, 30] 2 2
          = GenerateDrums.place_sound [1, 2, 3]
              (([10, 20, 30] : List ℚ).take
                (([1, 2, 3] : List ℚ).length - (intPy (2:ℚ)).toNat)) 2 2) := by
  have hp : (intPy (2:ℚ)).toNat = 2 := by
    rw [show (2:ℚ) = ((2:ℕ) : ℚ) by norm_num, intPy_natCast_toNat]
  have h := c6_place_sound_truncates_without_growing ([1, 2, 3] : List ℚ)
    ([10, 20, 30] : List ℚ) 2 2 (by norm_num) (by rw [hp]; norm_num)
    (by rw [hp]; norm_num)
  exact ⟨⟨by norm_num, by rw [hp]; norm_num, by rw [hp]; norm_num⟩, h⟩

/-- C10 witness: placing the two-sample sound [10, 20] at position 1 of the
four-sample track [1, 2, 3, 4] satisfies the hypotheses, and the frame
property follows from the theorem. -/
theorem c10_place_sound_frame_witness :
    ((0:ℚ) ≤ 1 ∧ (intPy (1:ℚ)).toNat ≤ ([1, 2, 3, 4] : List ℚ).length)
    ∧ ((GenerateDrums.place_sound [1, 2, 3, 4] [10, 20] 1 3).length
        = ([1, 2, 3, 4] : List ℚ).length
      ∧ (∀ i : ℕ, (intPy (1:ℚ)).toNat ≤ i
          → i < min ((intPy (1:ℚ)).toNat + ([10, 20] : List ℚ).length)
              ([1, 2, 3, 4] : List ℚ).length
          → (GenerateDrums.place_sound [1, 2, 3, 4] [10, 20] 1 3)[i]?
              = some (([1, 2, 3, 4] : List ℚ).getD i 0
                  + ([10, 20] : List ℚ).getD (i - (intPy (1:ℚ)).toNat) 0 * 3))
      ∧ (∀ i : ℕ,
          (i < (intPy (1:ℚ)).toNat
            ∨ min ((intPy (1:ℚ)).toNat + ([10, 20] : List ℚ).length)
                ([1, 2, 3, 4] : List ℚ).length ≤ i)
          → (GenerateDrums.place_sound [1, 2, 3, 4] [10, 20] 1 3)[i]?
              = ([1, 2, 3, 4] : List ℚ)[i]?)) := by
  have hp : (intPy (1:ℚ)).toNat = 1 := by
    rw [show (1:ℚ) = ((1:ℕ) : ℚ) by norm_num, intPy_natCast_toNat]
  exact ⟨⟨by norm_num, by rw [hp]; norm_num⟩,
    c10_place_sound_frame ([1, 2, 3, 4] : List ℚ) ([10, 20] : List ℚ) 1 3
      (by norm_num) (by rw [hp]; norm_num)⟩

/-- beat_to_samples at a whole number of beats is exactly 22050 samples per
beat. -/
theorem beat_to_samples_nat (b : ℕ) :
    GenerateDrums.beat_to_samples ((b : ℕ) : ℚ) = 22050 * b := by
  rw [GenerateDrums.beat_to_samples,
    show ((b : ℕ) : ℚ) * BEAT_DURATION * SAMPLE_RATE = ((22050 * b : ℕ) : ℚ) by
      push_cast [BEAT_DURATION, BPM, SAMPLE_RATE]; ring,
    intPy_natCast]
  push_cast
  ring

/-- The chorus kick positions flatten to consecutive multiples of 22050. -/
theorem kick_positions_flat (L : ℕ) :
    (List.range L).flatMap (fun bar : ℕ => (List.range 4).map (fun beat : ℕ =>
        GenerateDrums.beat_to_samples ((bar * 4 + beat : ℕ) : ℚ)))
      = (List.range (4 * L)).map (fun i : ℕ => (22050 * (i : ℤ))) := by
  induction L with
  | zero => simp
  | succ n ih =>
    rw [List.range_succ, List.flatMap_append, ih,
      show 4 * (n + 1) = 4 * n + 4 by ring, List.range_add, List.map_append]
    congr 1
    · simp only [List.flatMap_cons, List.flatMap_nil, List.append_nil, List.map_map]
      apply List.map_congr_left
      intro beat hbeat
      rw [beat_to_samples_nat]
      simp only [Function.comp_apply]
      push_cast
      ring

/-- C3 (amended): at whole beat numbers the beat-to-sample conversion
equals 22050 * b, which agrees with round(b * 0.5 * 44100); and in a
four-on-the-floor chorus bar the kick placed at slot (bar, beat) sits at
sample offset beat_to_samples(beat) relative to the bar start
beat_to_samples(4 * bar).  (At fractional beat numbers the conversion is
int(), not round; see the counterexample.) -/
theorem c3_beat_to_samples_and_chorus_kicks (b num_beats bar beat : ℕ)
    (hbar : bar < num_beats / 4) (hbeat : beat < 4) :
    (GenerateDrums.beat_to_samples ((b : ℕ) : ℚ) = 22050 * b
      ∧ GenerateDrums.beat_to_samples ((b : ℕ) : ℚ)
          = round (((b : ℕ) : ℚ) * (1/2 : ℚ) * 44100))
    ∧ (GenerateDrums.chorus_kick_positions num_beats)[4 * bar + beat]?
        = some (GenerateDrums.beat_to_samples ((4 * bar : ℕ) : ℚ)
            + GenerateDrums.beat_to_samples ((beat : ℕ) : ℚ)) := by
  refine ⟨⟨beat_to_samples_nat b, ?_⟩, ?_⟩
  · rw [beat_to_samples_nat,
      show ((b : ℕ) : ℚ) * (1/2 : ℚ) * 44100 = ((22050 * b : ℤ) : ℚ) by push_cast; ring,
      round_intCast]
  · rw [GenerateDrums.chorus_kick_positions, kick_positions_flat,
      List.getElem?_map, List.getElem?_range (show 4 * bar + beat < 4 * (num_beats / 4)
        by omega)]
    rw [beat_to_samples_nat, beat_to_samples_nat]
    simp only [Option.map_some']
    congr 1
    push_cast
    ring

/-- C3 witness: beat number 3 and chorus slot bar 1, beat 2 of an 8 beat
chorus satisfy the hypotheses, and the conclusion follows from the
theorem. -/
theorem c3_beat_to_samples_and_chorus_kicks_witness :
    ((1 : ℕ) < 8 / 4 ∧ (2 : ℕ) < 4)
    ∧ ((GenerateDrums.beat_to_samples ((3 : ℕ) : ℚ) = 22050 * 3
      ∧ GenerateDrums.beat_to_samples ((3 : ℕ) : ℚ)
          = round (((3 : ℕ) : ℚ) * (1/2 : ℚ) * 44100))
    ∧ (GenerateDrums.chorus_kick_positions 8)[4 * 1 + 2]?
        = some (GenerateDrums.beat_to_samples ((4 * 1 : ℕ) : ℚ)
            + GenerateDrums.beat_to_samples ((2 : ℕ) : ℚ))) :=
  ⟨⟨by norm_num, by norm_num⟩,
    c3_beat_to_samples_and_chorus_kicks 3 8 1 2 (by norm_num) (by norm_num)⟩

/-- C3 counterexample: at the fractional beat number 1/4 (used by the
snare fills of generate_chorus), the conversion truncates 5512.5 to 5512,
but round(b * 0.5 * 44100) is 5513, so the claimed round formula is false
on the conversion as implemented. -/
theorem c3_counterexample :
    GenerateDrums.beat_to_samples (1/4 : ℚ) ≠ round ((1/4 : ℚ) * (1/2 : ℚ) * 44100) := by
  have h : GenerateDrums.beat_to_samples (1/4 : ℚ) = 5512 := by
    rw [GenerateDrums.beat_to_samples,
      show (1/4 : ℚ) * BEAT_DURATION * SAMPLE_RATE = 11025/2 by
        norm_num [BEAT_DURATION, BPM, SAMPLE_RATE],
      intPy_eq_floor (by norm_num)]
    norm_num
  rw [h, round_eq]
  norm_num

/-- C7 (amended): on a buffer of peak absolute amplitude 2, save_wav in
generate_synths.py scales every sample by exactly 0.7 / 2 = 0.35; the
epsilon-guarded bass normalization instead scales by 0.7 / (2 + 1e-9),
which is not exactly 0.35. -/
theorem c7_normalize_peak2_scale (audio : List ℚ) (hpeak : peakAbs audio = 2) :
    GenerateSynths.save_wav_normalize audio = audio.map (fun x => x * (35/100))
    ∧ GenerateBass.peak_normalize audio (7/10)
        = audio.map (fun x => x * ((7/10) / (2 + 1/1000000000))) := by
  constructor
  · rw [GenerateSynths.save_wav_normalize, hpeak, if_pos (by norm_num)]
    apply List.map_congr_left
    intro x hx
    norm_num
  · rw [GenerateBass.peak_normalize, hpeak]
    apply List.map_congr_left
    intro x hx
    ring

/-- C7 witness: the one-sample buffer [2] has peak 2, and the conclusion
follows from the theorem. -/
theorem c7_normalize_peak2_scale_witness :
    peakAbs [(2:ℚ)] = 2
    ∧ (GenerateSynths.save_wav_normalize [(2:ℚ)]
        = ([(2:ℚ)]).map (fun x => x * (35/100))
      ∧ GenerateBass.peak_normalize [(2:ℚ)] (7/10)
          = ([(2:ℚ)]).map (fun x => x * ((7/10) / (2 + 1/1000000000)))) := by
  have hp : peakAbs [(2:ℚ)] = 2 := by
    simp [peakAbs]
  exact ⟨hp, c7_normalize_peak2_scale [(2:ℚ)] hp⟩

/-- C7 counterexample: normalizing the buffer [2] (peak 2) through the
epsilon-guarded bass normalization against target 0.7 does not multiply
the sample by exactly 0.35: the output sample is 1.4 / 2.000000001, not
0.7. -/
theorem c7_counterexample :
    peakAbs [(2:ℚ)] = 2
    ∧ GenerateBass.peak_normalize [(2:ℚ)] (7/10) ≠ [2 * (35/100)] := by
  have hp : peakAbs [(2:ℚ)] = 2 := by
    simp [peakAbs]
  refine ⟨hp, ?_⟩
  rw [GenerateBass.peak_normalize, hp]
  simp only [List.map_cons, List.map_nil, ne_eq, List.cons.injEq, and_true]
  norm_num

/-- A buffer all of whose entries are 0 has peak 0. -/
theorem peakAbs_all_zero {l : List ℚ} (h : ∀ x ∈ l, x = 0) : peakAbs l = 0 := by
  induction l with
  | nil => rfl
  | cons a t ih =>
    have ha : a = 0 := h a (List.mem_cons_self a t)
    have ht : peakAbs t = 0 := ih (fun x hx => h x (List.mem_cons_of_mem _ hx))
    simp only [peakAbs, List.foldr_cons] at ht ⊢
    rw [ht, ha]
    norm_num

/-- C9: normalizing an all-zero buffer is safe in all three renderers: the
drums renderer returns the all-zero int16 buffer of the same length, the
synth save_wav normalization returns the buffer unchanged (all zero), and
the epsilon-guarded bass normalization returns the all-zero buffer for
every target, with no division error. -/
theorem c9_all_zero_normalization_safe (track : List ℚ) (h : ∀ x ∈ track, x = 0) :
    GenerateDrums.normalize_and_convert track = List.replicate track.length 0
    ∧ GenerateSynths.save_wav_normalize track = track
    ∧ (∀ target : ℚ, GenerateBass.peak_normalize track target
        = List.replicate track.length 0) := by
  have hpk : peakAbs track = 0 := peakAbs_all_zero h
  have hz : intPy ((0:ℚ) * 32767) = 0 := by
    rw [show (0:ℚ) * 32767 = 0 by ring, intPy_eq_floor le_rfl, Int.floor_zero]
  refine ⟨?_, ?_, ?_⟩
  · rw [GenerateDrums.normalize_and_convert]
    simp only [hpk, lt_irrefl, if_false]
    rw [List.eq_replicate_iff]
    refine ⟨by simp, ?_⟩
    intro b hb
    rcases List.mem_map.1 hb with ⟨x, hx, rfl⟩
    rw [h x hx]
    exact hz
  · rw [GenerateSynths.save_wav_normalize, hpk]
    simp
  · intro target
    rw [GenerateBass.peak_normalize, hpk]
    rw [List.eq_replicate_iff]
    refine ⟨by simp, ?_⟩
    intro b hb
    rcases List.mem_map.1 hb with ⟨x, hx, rfl⟩
    rw [h x hx]
    ring

/-- C9 witness: the all-zero two-sample buffer satisfies the hypothesis,
and the conclusion follows from the theorem. -/
theorem c9_all_zero_normalization_safe_witness :
    (∀ x ∈ ([0, 0] : List ℚ), x = 0)
    ∧ (GenerateDrums.normalize_and_convert [0, 0]
        = List.replicate ([0, 0] : List ℚ).length 0
      ∧ GenerateSynths.save_wav_normalize [0, 0] = [0, 0]
      ∧ (∀ target : ℚ, GenerateBass.peak_normalize [0, 0] target
          = List.replicate ([0, 0] : List ℚ).length 0)) := by
  have h : ∀ x ∈ ([0, 0] : List ℚ), x = 0 := by
    intro x hx
    rcases List.mem_cons.1 hx with rfl | hx2
    · rfl
    · rcases List.mem_cons.1 hx2 with rfl | hx3
      · rfl
      · simp at hx3
  exact ⟨h, c9_all_zero_normalization_safe [0, 0] h⟩

/-- C4 (amended): the noise-based drum voices are deterministic functions
of their parameters and of the drawn noise samples: two runs with
identical duration, sample rate and noise draws (on the indices actually
read) produce identical snare and closed hi-hat buffers.  Two runs of the
unseeded generator need not draw the same noise, and then the buffers can
differ; see the counterexample. -/
theorem c4_drum_voices_deterministic_given_noise (duration sample_rate : ℚ)
    (noise1 noise2 : ℕ → ℝ)
    (h : ∀ i < GenerateDrums.drum_len duration sample_rate, noise1 i = noise2 i) :
    GenerateDrums.generate_snare duration sample_rate noise1
        = GenerateDrums.generate_snare duration sample_rate noise2
    ∧ GenerateDrums.generate_hihat_closed duration sample_rate noise1
        = GenerateDrums.generate_hihat_closed duration sample_rate noise2 := by
  constructor
  · simp only [GenerateDrums.generate_snare]
    apply List.map_congr_left
    intro i hi
    rw [h i (List.mem_range.1 hi)]
  · simp only [GenerateDrums.generate_hihat_closed]
    apply List.map_congr_left
    intro i hi
    have hi2 := List.mem_range.1 hi
    by_cases h0 : i = 0
    · rw [if_pos h0, if_pos h0, h i hi2]
    · rw [if_neg h0, if_neg h0, h i hi2, h (i - 1) (by omega)]

/-- C4 witness: with the default snare duration 0.12 at 44100 Hz and equal
noise draws, the hypotheses hold and both buffers coincide by the
theorem. -/
theorem c4_drum_voices_deterministic_given_noise_witness :
    (∀ i < GenerateDrums.drum_len (12/100) 44100,
      (fun _ : ℕ => (0:ℝ)) i = (fun _ : ℕ => (0:ℝ)) i)
    ∧ GenerateDrums.generate_snare (12/100) 44100 (fun _ : ℕ => (0:ℝ))
        = GenerateDrums.generate_snare (12/100) 44100 (fun _ : ℕ => (0:ℝ))
    ∧ GenerateDrums.generate_hihat_closed (12/100) 44100 (fun _ : ℕ => (0:ℝ))
        = GenerateDrums.generate_hihat_closed (12/100) 44100 (fun _ : ℕ => (0:ℝ)) :=
  ⟨fun _ _ => rfl,
    (c4_drum_voices_deterministic_given_noise (12/100) 44100 _ _ (fun _ _ => rfl)).1,
    (c4_drum_voices_deterministic_given_noise (12/100) 44100 _ _ (fun _ _ => rfl)).2⟩

/-- C4 counterexample: the snare generator is not a function of its
parameters alone.  Two runs with identical parameters (duration 0.12,
sample rate 44100) whose unseeded noise draws differ (all zeros versus all
ones) produce different buffers: sample 0 is 0 in the first run and 0.6 in
the second. -/
theorem c4_counterexample :
    GenerateDrums.generate_snare (12/100) 44100 (fun _ : ℕ => (0:ℝ))
      ≠ GenerateDrums.generate_snare (12/100) 44100 (fun _ : ℕ => (1:ℝ)) := by
  have hn : GenerateDrums.drum_len (12/100) 44100 = 5292 := by
    rw [GenerateDrums.drum_len,
      show (44100:ℚ) * (12/100) = ((5292:ℕ) : ℚ) by norm_num, intPy_natCast_toNat]
  have key : ∀ noise : ℕ → ℝ,
      (GenerateDrums.generate_snare (12/100) 44100 noise)[0]? = some (noise 0 * 0.6) := by
    intro noise
    simp only [GenerateDrums.generate_snare, hn]
    rw [List.getElem?_map, List.getElem?_range (show (0:ℕ) < 5292 by norm_num)]
    simp only [Option.map_some']
    congr 1
    rw [show (((0:ℕ) : ℚ) * (12/100) / ((5292:ℕ) : ℚ) : ℚ) = 0 by norm_num]
    push_cast
    rw [show (-(0:ℝ) * 40) = 0 by ring, show (-(0:ℝ) * 50) = 0 by ring,
      show ((2:ℝ) * Real.pi * 200 * 0) = 0 by ring, Real.exp_zero, Real.sin_zero]
    ring
  intro hcontra
  have h1 := key (fun _ : ℕ => (0:ℝ))
  have h2 := key (fun _ : ℕ => (1:ℝ))
  rw [hcontra] at h1
  have h3 := h1.symm.trans h2
  simp only [Option.some.injEq] at h3
  norm_num at h3
